import Mathlib

/-!
Shallow embedding of the pikaboard sprite and avatar generation scripts
(`scripts/generate_pika_walk.py` and `scripts/generate_avatars.py`).

Images are modelled as rectangular RGBA rasters: a width, a height and a
pixel lookup function; only coordinates `x < width`, `y < height` are
meaningful.  The PIL primitives used by the scripts (paste with an alpha
mask, horizontal flip, crop, thumbnail, resize, getdata/putdata) are
modelled from PIL's documented semantics with exact integer arithmetic;
the LANCZOS resampling filter of `resize` is modelled by
nearest-neighbour sampling (only the geometry of resizing matters to the
statements below).
-/

namespace PikaBoard

/-- One RGBA pixel; channel values are naturals (0..255 in the scripts). -/
structure Pixel where
  r : Nat
  g : Nat
  b : Nat
  a : Nat
deriving DecidableEq, Repr

/-- The fully transparent pixel (0, 0, 0, 0). -/
def Pixel.clear : Pixel := ⟨0, 0, 0, 0⟩

/-- An RGBA raster: dimensions plus a pixel lookup function. -/
structure Img where
  width : Nat
  height : Nat
  pix : Nat → Nat → Pixel

/-- A fully transparent raster, as created by `Image.new('RGBA', (w, h), (0,0,0,0))`. -/
def blank (w h : Nat) : Img := ⟨w, h, fun _ _ => Pixel.clear⟩

/-- PIL's MULDIV255 fixed-point operation: computes round(a * b / 255) by
`t = a*b + 128; ((t >> 8) + t) >> 8`. -/
def mulDiv255 (a b : Nat) : Nat :=
  let t := a * b + 128
  (t / 256 + t) / 256

/-- PIL's BLEND macro for paste-with-mask on one channel:
`MULDIV255(in1, 255 - mask) + MULDIV255(in2, mask)`. -/
def blendChannel (m c1 c2 : Nat) : Nat := mulDiv255 c1 (255 - m) + mulDiv255 c2 m

/-- Blend two pixels under mask value `m` (0 keeps `dst`, 255 takes `src`),
channel-wise as PIL's Paste.c does for RGBA images with an alpha-band mask. -/
def blendPixel (dst src : Pixel) (m : Nat) : Pixel :=
  ⟨blendChannel m dst.r src.r, blendChannel m dst.g src.g,
   blendChannel m dst.b src.b, blendChannel m dst.a src.a⟩

/-- PIL `dst.paste(src, (px, py), src)` for RGBA images: inside the pasted
region (clipped to the destination bounds) each pixel is blended using the
source's own alpha channel as the mask; outside it the destination is kept.
The destination's dimensions are unchanged. -/
def paste (dst src : Img) (px py : Int) : Img :=
  { width := dst.width, height := dst.height,
    pix := fun x y =>
      let sx : Int := (x : Int) - px
      let sy : Int := (y : Int) - py
      if 0 ≤ sx ∧ sx < (src.width : Int) ∧ 0 ≤ sy ∧ sy < (src.height : Int) ∧
          x < dst.width ∧ y < dst.height then
        let sp := src.pix sx.toNat sy.toNat
        blendPixel (dst.pix x y) sp sp.a
      else dst.pix x y }

/-- PIL `img.transpose(Image.FLIP_LEFT_RIGHT)`: mirror each row. -/
def transposeFlipLR (img : Img) : Img :=
  { width := img.width, height := img.height,
    pix := fun x y => img.pix (img.width - 1 - x) y }

/-- PIL `img.crop((l, t, r, b))`: the result has size (r - l) × (b - t) and
takes its pixels from the source at offset (l, t); regions outside the
source are transparent. -/
def cropRect (img : Img) (l t r b : Nat) : Img :=
  { width := r - l, height := b - t,
    pix := fun x y =>
      if l + x < img.width ∧ t + y < img.height then img.pix (l + x) (t + y)
      else Pixel.clear }

/-- PIL `img.resize((w, h), LANCZOS)` geometry: the result has exactly the
requested dimensions and samples the full extent of the source, each axis
scaled independently.  Pixel values are modelled by nearest-neighbour
sampling (the LANCZOS filter weights are not modelled). -/
def resizePixel (img : Img) (w h : Nat) : Img :=
  { width := w, height := h,
    pix := fun x y => img.pix (x * img.width / w) (y * img.height / h) }

/-- PIL `img.getdata()`: the pixels as one flat row-major sequence. -/
def getdata (img : Img) : List Pixel :=
  (List.range (img.height * img.width)).map
    (fun i => img.pix (i % img.width) (i / img.width))

/-- PIL `img.putdata(data)`: rewrite the raster's pixels from a flat
row-major sequence; the dimensions are unchanged. -/
def putdata (img : Img) (data : List Pixel) : Img :=
  { width := img.width, height := img.height,
    pix := fun x y => data.getD (y * img.width + x) Pixel.clear }

/-! Constants of `generate_pika_walk.py` (lines 11-15). -/

def CELL_SIZE : Nat := 128
def FRAMES : Nat := 4
def DIRECTIONS : List String := ["S", "W", "N", "E"]
def GROUND_LINE : Nat := 110
def MARGIN : Nat := 8

/-- The per-pixel transform of `remove_white_background`'s loop body:
a pixel whose r, g, b channels all exceed the threshold becomes
(255, 255, 255, 0); any other pixel is kept. -/
def whiten (threshold : Nat) (p : Pixel) : Pixel :=
  if threshold < p.r ∧ threshold < p.g ∧ threshold < p.b then ⟨255, 255, 255, 0⟩ else p

/-- `remove_white_background(img, threshold=250)`: iterate `getdata`, map the
near-white test over every pixel, and `putdata` the result back.  (The same
loop is inlined verbatim in `generate_avatars.py`'s `create_avatar` with
threshold 250.) -/
def remove_white_background (img : Img) (threshold : Nat) : Img :=
  putdata img ((getdata img).map (whiten threshold))

/-- Does column `x` of the raster contain a pixel with nonzero alpha? -/
def colHas (img : Img) (x : Nat) : Bool :=
  (List.range img.height).any (fun y => (img.pix x y).a != 0)

/-- Does row `y` of the raster contain a pixel with nonzero alpha? -/
def rowHas (img : Img) (y : Nat) : Bool :=
  (List.range img.width).any (fun x => (img.pix x y).a != 0)

/-- PIL `alpha.getbbox()` where `alpha = img.split()[-1]`: the bounding box
(left, top, right-exclusive, bottom-exclusive) of the pixels with nonzero
alpha, or `none` when the raster is fully transparent. -/
def getbbox (img : Img) : Option (Nat × Nat × Nat × Nat) :=
  match ((List.range img.width).filter (colHas img)).head?,
        ((List.range img.height).filter (rowHas img)).head?,
        ((List.range img.width).filter (colHas img)).getLast?,
        ((List.range img.height).filter (rowHas img)).getLast? with
  | some l, some t, some r, some b => some (l, t, r + 1, b + 1)
  | _, _, _, _ => none

/-- `crop_to_content(img, padding)` (generate_pika_walk.py lines 35-50):
crop to the alpha bounding box expanded by `padding` on each side and
clamped to the raster bounds; a fully transparent raster is returned
unchanged.  Natural subtraction models Python's `max(0, v - padding)`. -/
def crop_to_content (img : Img) (padding : Nat) : Img :=
  match getbbox img with
  | some (l, t, r, b) =>
      cropRect img (l - padding) (t - padding)
        (min img.width (r + padding)) (min img.height (b + padding))
  | none => img

/-- The size computation of PIL `img.thumbnail((bx, by))`: keep the size when
it already fits; otherwise scale the longer side down to the box, rounding
the other side to the integer nearest the exact aspect ratio (floor wins
ties; the result is at least 1).  Exact integer arithmetic replaces PIL's
float arithmetic. -/
def thumbnailSize (w h bx bny : Nat) : Nat × Nat :=
  if w ≤ bx ∧ h ≤ bny then (w, h)
  else if bny * w ≤ bx * h then
    -- box is at least as wide as the aspect ratio: height becomes bny,
    -- width becomes bny * w / h rounded to nearest (key |w/h - n/bny|)
    let q := bny * w
    let f := q / h
    let c := (q + h - 1) / h
    let kf : Int := (q : Int) - (f * h : Nat)
    let kc : Int := ((c * h : Nat) : Int) - (q : Int)
    let x := if kf.natAbs ≤ kc.natAbs then f else c
    (max x 1, bny)
  else
    -- box is narrower than the aspect ratio: width becomes bx,
    -- height becomes bx * h / w rounded to nearest (key |w/h - bx/n|,
    -- where n = 0 counts as infinitely far)
    let q := bx * h
    let f := q / w
    let c := (q + w - 1) / w
    let kf : Nat := (q - f * w) * c
    let kc : Nat := (c * w - q) * f
    let y := if 0 < f ∧ kf ≤ kc then f else c
    (bx, max y 1)

/-- `center_in_cell(img, cell_size=128)` (generate_pika_walk.py lines 52-64):
thumbnail the frame into a box 16 smaller than the cell, then paste it onto
a fresh transparent cell, horizontally centred, its bottom edge 8 pixels
above the cell's bottom edge, masked by its own alpha. -/
def center_in_cell (img : Img) (cell_size : Nat) : Img :=
  let ts := thumbnailSize img.width img.height (cell_size - 16) (cell_size - 16)
  let timg := resizePixel img ts.1 ts.2
  let cell := blank cell_size cell_size
  let x : Int := ((cell_size : Int) - (timg.width : Int)) / 2
  let y : Int := (cell_size : Int) - (timg.height : Int) - 8
  paste cell timg x y

/-- `load_and_process_frame(filepath)` after `Image.open`: remove the white
background (threshold 250), crop to content with padding 10, and centre in
a `CELL_SIZE` cell. -/
def load_and_process_frame (img : Img) : Img :=
  center_in_cell (crop_to_content (remove_white_background img 250) 10) CELL_SIZE

/-- `create_walk_variations(base_img)` (lines 81-111): frame 0 and frame 2
are copies of the base; frame 1 pastes the base at (0, 3) onto a fresh
transparent canvas of the same size, masked by the base's alpha; frame 3
pastes it at (0, -2). -/
def create_walk_variations (base : Img) : List Img :=
  [base,
   paste (blank base.width base.height) base 0 3,
   base,
   paste (blank base.width base.height) base 0 (-2)]

/-- `flip_horizontal(img)` (lines 113-115). -/
def flip_horizontal (img : Img) : Img := transposeFlipLR img

/-- Paste one row of frames (one direction) onto the sheet at row `row`,
frame `col` at pixel offset (col * CELL_SIZE, row * CELL_SIZE). -/
def pasteRow (sheet : Img) (frames : List Img) (row : Nat) : Img :=
  frames.enum.foldl
    (fun s cf => paste s cf.2 ((cf.1 * CELL_SIZE : Nat) : Int) ((row * CELL_SIZE : Nat) : Int))
    sheet

/-- `create_spritesheet(direction_frames)` (lines 117-131): a fresh
transparent raster of CELL_SIZE*FRAMES by CELL_SIZE*len(DIRECTIONS), with
each direction's frames pasted row by row.  `direction_frames[direction]`
raises KeyError when a direction is absent, modelled by `none`. -/
def create_spritesheet (direction_frames : String → Option (List Img)) : Option Img :=
  DIRECTIONS.enum.foldlM
    (fun sheet rd => (direction_frames rd.2).map (fun frames => pasteRow sheet frames rd.1))
    (blank (CELL_SIZE * FRAMES) (CELL_SIZE * DIRECTIONS.length))

/-- The walk directions whose source files `main` tries to load (line 148). -/
def walkDirs : List String := ["S", "N", "E", "SE", "NE"]

/-- The walk frames loaded from disk: for each direction in `walkDirs`,
process `walk_<direction>.png` when that file exists.  `fs` maps a file
name to its decoded raster when the file exists. -/
def walkLoaded (fs : String → Option Img) (d : String) : Option Img :=
  if d ∈ walkDirs then (fs (String.append (String.append "walk_" d) ".png")).map load_and_process_frame
  else none

/-- `raw_frames` after `main`'s loading loop and the `W = flip E` step
(lines 145-159): W is present exactly when E was loaded, and holds the
horizontal flip of E's processed frame. -/
def walkRawFrames (fs : String → Option Img) (d : String) : Option Img :=
  if d = "W" then (walkLoaded fs "E").map flip_horizontal else walkLoaded fs d

/-- The idle directions whose source files `process_idle_frames` tries to
load (line 219). -/
def idleDirs : List String := ["S", "W", "N", "NW", "SE"]

/-- The idle frames loaded from disk from `idle_<direction>.png`. -/
def idleLoaded (fs : String → Option Img) (d : String) : Option Img :=
  if d ∈ idleDirs then (fs (String.append (String.append "idle_" d) ".png")).map load_and_process_frame
  else none

/-- `idle_frames` after `process_idle_frames`' loading loop and the
`E = flip W` step (lines 217-228). -/
def idleRawFrames (fs : String → Option Img) (d : String) : Option Img :=
  if d = "E" then (idleLoaded fs "W").map flip_horizontal else idleLoaded fs d

/-- One row of the idle sheet loop (lines 234-241): when the direction is
present, paste its single frame four times along the row; otherwise leave
the sheet untouched. -/
def idleRowStep (idle_frames : String → Option Img) (sheet : Img) (rd : Nat × String) : Img :=
  match idle_frames rd.2 with
  | some frame =>
      (List.range 4).foldl
        (fun s col => paste s frame ((col * 128 : Nat) : Int) ((rd.1 * 128 : Nat) : Int))
        sheet
  | none => sheet

/-- The idle sheet assembly of `process_idle_frames` (lines 231-241): a fresh
transparent 512 by 512 raster with each present direction's frame pasted
four times along its row. -/
def idle_sheet (idle_frames : String → Option Img) : Img :=
  DIRECTIONS.enum.foldl (idleRowStep idle_frames) (blank 512 512)

/-! The manifest document written by `main` (lines 188-200). -/

structure AnimationEntry where
  file : String
  frames : Nat
  fps : Nat
deriving DecidableEq, Repr

structure SafeZone where
  margin : Nat
deriving DecidableEq, Repr

structure Manifest where
  agent : String
  version : Nat
  cellSize : Nat
  directions : Nat
  directionOrder : List String
  idle : AnimationEntry
  walk : AnimationEntry
  groundLine : Nat
  safeZone : SafeZone
deriving DecidableEq, Repr

/-- The literal manifest emitted by `main`. -/
def manifest : Manifest :=
  { agent := "pika", version := 1, cellSize := 128, directions := 4,
    directionOrder := ["S", "W", "N", "E"],
    idle := ⟨"idle.png", 4, 5⟩, walk := ⟨"walk.png", 4, 5⟩,
    groundLine := 110, safeZone := ⟨8⟩ }

/-! Definitions from `generate_avatars.py`. -/

/-- `create_avatar(source_path, output_path, size=512)` on an existing
source (lines 11-41): the same near-white removal loop (threshold 250),
then `img.resize((size, size), LANCZOS)`. -/
def create_avatar (img : Img) (size : Nat) : Img :=
  resizePixel (remove_white_background img 250) size size

/-- One character's step of `generate_avatars.py`'s `main` (lines 60-67),
acting on the content of `avatar.png` (`none` when the file is absent):
when the file exists and is already 512 by 512 it is skipped and not
rewritten; otherwise it is overwritten with `create_avatar`'s output. -/
def processAvatarFile (file : Option Img) : Option Img :=
  match file with
  | none => none
  | some img =>
      if img.width = 512 ∧ img.height = 512 then some img
      else some (create_avatar img 512)

/-! Specification-side predicate used to settle the crop claim. -/

/-- `(l, t, r, b)` is the smallest rectangle (right and bottom exclusive)
containing every pixel of `img` with nonzero alpha: it contains them all,
and each of its four edges is attained by such a pixel. -/
def IsTightBBox (img : Img) (l t r b : Nat) : Prop :=
  (∀ x, x < img.width → ∀ y, y < img.height → (img.pix x y).a ≠ 0 →
      l ≤ x ∧ x < r ∧ t ≤ y ∧ y < b) ∧
  (∃ x, ∃ y, x < img.width ∧ y < img.height ∧ (img.pix x y).a ≠ 0 ∧ x = l) ∧
  (∃ x, ∃ y, x < img.width ∧ y < img.height ∧ (img.pix x y).a ≠ 0 ∧ x + 1 = r) ∧
  (∃ x, ∃ y, x < img.width ∧ y < img.height ∧ (img.pix x y).a ≠ 0 ∧ y = t) ∧
  (∃ x, ∃ y, x < img.width ∧ y < img.height ∧ (img.pix x y).a ≠ 0 ∧ y + 1 = b)

/-! Basic lemmas about the PIL primitives. -/

theorem blank_pix (w h x y : Nat) : (blank w h).pix x y = Pixel.clear := rfl

theorem blank_width (w h : Nat) : (blank w h).width = w := rfl

theorem blank_height (w h : Nat) : (blank w h).height = h := rfl

theorem resizePixel_width (img : Img) (w h : Nat) : (resizePixel img w h).width = w := rfl

theorem resizePixel_height (img : Img) (w h : Nat) : (resizePixel img w h).height = h := rfl

theorem paste_width (dst src : Img) (px py : Int) : (paste dst src px py).width = dst.width := rfl

theorem paste_height (dst src : Img) (px py : Int) : (paste dst src px py).height = dst.height := rfl

theorem paste_pix_eq (dst src : Img) (px py : Int) (x y : Nat) :
    (paste dst src px py).pix x y =
      if 0 ≤ (x : Int) - px ∧ (x : Int) - px < (src.width : Int) ∧
          0 ≤ (y : Int) - py ∧ (y : Int) - py < (src.height : Int) ∧
          x < dst.width ∧ y < dst.height then
        blendPixel (dst.pix x y) (src.pix ((x : Int) - px).toNat ((y : Int) - py).toNat)
          (src.pix ((x : Int) - px).toNat ((y : Int) - py).toNat).a
      else dst.pix x y := rfl

theorem paste_pix_out (dst src : Img) (px py : Int) (x y : Nat)
    (h : (x : Int) < px ∨ px + src.width ≤ x ∨ (y : Int) < py ∨ py + src.height ≤ y ∨
      dst.width ≤ x ∨ dst.height ≤ y) :
    (paste dst src px py).pix x y = dst.pix x y := by
  rw [paste_pix_eq, if_neg]
  intro hc
  omega

theorem paste_pix_in (dst src : Img) (px py x y : Nat)
    (h1 : px ≤ x) (h2 : x < px + src.width) (h3 : py ≤ y) (h4 : y < py + src.height)
    (h5 : x < dst.width) (h6 : y < dst.height) :
    (paste dst src (px : Int) (py : Int)).pix x y =
      blendPixel (dst.pix x y) (src.pix (x - px) (y - py)) (src.pix (x - px) (y - py)).a := by
  rw [paste_pix_eq, if_pos (by omega)]
  have e1 : ((x : Int) - (px : Int)).toNat = x - px := by omega
  have e2 : ((y : Int) - (py : Int)).toNat = y - py := by omega
  rw [e1, e2]

/-- Index lookup into the mapped flat pixel list used by `putdata`. -/
theorem getdata_map_getD (g : Pixel → Pixel) (img : Img) (x y : Nat)
    (hx : x < img.width) (hy : y < img.height) :
    ((getdata img).map g).getD (y * img.width + x) Pixel.clear = g (img.pix x y) := by
  have hw : 0 < img.width := lt_of_le_of_lt (Nat.zero_le x) hx
  have hidx : y * img.width + x < img.height * img.width := by
    calc y * img.width + x < y * img.width + img.width := by omega
    _ = (y + 1) * img.width := by ring
    _ ≤ img.height * img.width := Nat.mul_le_mul_right _ hy
  have h1 : (y * img.width + x) % img.width = x := by
    rw [Nat.mul_comm y img.width, Nat.mul_add_mod, Nat.mod_eq_of_lt hx]
  have h2 : (y * img.width + x) / img.width = y := by
    rw [Nat.mul_comm y img.width, Nat.mul_add_div hw, Nat.div_eq_of_lt hx, Nat.add_zero]
  rw [List.getD_eq_getElem?_getD]
  unfold getdata
  rw [List.getElem?_map, List.getElem?_map, List.getElem?_range hidx]
  simp [h1, h2]

/-- C3. For every RGBA raster, `remove_white_background` keeps the
dimensions, maps each pixel whose red, green and blue channels all exceed
the threshold to (255, 255, 255, 0), and leaves every other pixel exactly
unchanged (same RGB and the same alpha). -/
theorem remove_white_background_spec (img : Img) (threshold x y : Nat)
    (hx : x < img.width) (hy : y < img.height) :
    (remove_white_background img threshold).width = img.width ∧
    (remove_white_background img threshold).height = img.height ∧
    ((threshold < (img.pix x y).r ∧ threshold < (img.pix x y).g ∧ threshold < (img.pix x y).b) →
      (remove_white_background img threshold).pix x y = ⟨255, 255, 255, 0⟩) ∧
    (¬(threshold < (img.pix x y).r ∧ threshold < (img.pix x y).g ∧ threshold < (img.pix x y).b) →
      (remove_white_background img threshold).pix x y = img.pix x y) := by
  refine ⟨rfl, rfl, ?_, ?_⟩ <;> intro h <;>
    · show ((getdata img).map (whiten threshold)).getD (y * img.width + x) Pixel.clear = _
      rw [getdata_map_getD _ _ _ _ hx hy]
      simp [whiten, h]

/-- Witness for C3: a 2-by-1 raster with one near-white and one coloured
pixel, at the near-white pixel. -/
theorem remove_white_background_spec_witness :
    (remove_white_background
        ⟨2, 1, fun x _ => if x = 0 then ⟨255, 255, 255, 255⟩ else ⟨10, 20, 30, 40⟩⟩ 250).width = 2 ∧
    (remove_white_background
        ⟨2, 1, fun x _ => if x = 0 then ⟨255, 255, 255, 255⟩ else ⟨10, 20, 30, 40⟩⟩ 250).height = 1 ∧
    ((250 < (Pixel.mk 255 255 255 255).r ∧ 250 < (Pixel.mk 255 255 255 255).g ∧
        250 < (Pixel.mk 255 255 255 255).b) →
      (remove_white_background
          ⟨2, 1, fun x _ => if x = 0 then ⟨255, 255, 255, 255⟩ else ⟨10, 20, 30, 40⟩⟩ 250).pix 0 0 =
        ⟨255, 255, 255, 0⟩) ∧
    (¬(250 < (Pixel.mk 255 255 255 255).r ∧ 250 < (Pixel.mk 255 255 255 255).g ∧
        250 < (Pixel.mk 255 255 255 255).b) →
      (remove_white_background
          ⟨2, 1, fun x _ => if x = 0 then ⟨255, 255, 255, 255⟩ else ⟨10, 20, 30, 40⟩⟩ 250).pix 0 0 =
        Pixel.mk 255 255 255 255) :=
  remove_white_background_spec
    ⟨2, 1, fun x _ => if x = 0 then ⟨255, 255, 255, 255⟩ else ⟨10, 20, 30, 40⟩⟩
    250 0 0 (by decide) (by decide)

/-- C7. The avatar step is idempotent: one pass leaves every file at
512 by 512 (or absent), so a second pass takes the skip path and changes
nothing; and a file already 512 by 512 is not rewritten at all. -/
theorem avatar_resize_idempotent :
    (∀ f : Option Img, processAvatarFile (processAvatarFile f) = processAvatarFile f) ∧
    (∀ img : Img, img.width = 512 → img.height = 512 → processAvatarFile (some img) = some img) := by
  constructor
  · intro f
    match f with
    | none => rfl
    | some img =>
        by_cases h : img.width = 512 ∧ img.height = 512
        · simp [processAvatarFile, h]
        · simp only [processAvatarFile, if_neg h]
          rw [if_pos]
          exact ⟨rfl, rfl⟩
  · intro img hw hh
    simp [processAvatarFile, hw, hh]

/-- Witness for C7 at a concrete 512-by-512 raster. -/
theorem avatar_resize_idempotent_witness :
    processAvatarFile (some (blank 512 512)) = some (blank 512 512) :=
  avatar_resize_idempotent.2 (blank 512 512) rfl rfl

/-- C9. `create_avatar` always produces a 512-by-512 raster, whatever the
source dimensions: each output pixel samples the cleaned source with the
two axes scaled independently (stretching, not letterboxing or cropping),
and every output pixel samples inside the source. -/
theorem create_avatar_stretches (img : Img) (hw : 0 < img.width) (hh : 0 < img.height) :
    (create_avatar img 512).width = 512 ∧ (create_avatar img 512).height = 512 ∧
    ∀ x, x < 512 → ∀ y, y < 512 →
      (create_avatar img 512).pix x y =
        (remove_white_background img 250).pix (x * img.width / 512) (y * img.height / 512) ∧
      x * img.width / 512 < img.width ∧ y * img.height / 512 < img.height := by
  refine ⟨rfl, rfl, ?_⟩
  intro x hx y hy
  refine ⟨rfl, ?_, ?_⟩
  · rw [Nat.div_lt_iff_lt_mul (by omega)]
    calc x * img.width < 512 * img.width := (Nat.mul_lt_mul_right hw).mpr hx
    _ = img.width * 512 := Nat.mul_comm _ _
  · rw [Nat.div_lt_iff_lt_mul (by omega)]
    calc y * img.height < 512 * img.height := (Nat.mul_lt_mul_right hh).mpr hy
    _ = img.height * 512 := Nat.mul_comm _ _

/-- Witness for C9 at a concrete 100-by-30 raster (non-square). -/
theorem create_avatar_stretches_witness :
    (create_avatar (blank 100 30) 512).width = 512 ∧
    (create_avatar (blank 100 30) 512).height = 512 ∧
    ∀ x, x < 512 → ∀ y, y < 512 →
      (create_avatar (blank 100 30) 512).pix x y =
        (remove_white_background (blank 100 30) 250).pix (x * 100 / 512) (y * 30 / 512) ∧
      x * 100 / 512 < 100 ∧ y * 30 / 512 < 30 :=
  create_avatar_stretches (blank 100 30) (by decide) (by decide)

/-- C8. When the east walk source is loaded and no west source was
captured, the pipeline's west base cell is exactly the horizontal mirror
of the processed east cell (and symmetrically the idle pipeline derives
east from west); the flip keeps the dimensions and moves no pixel
vertically: row `y` of the flip is row `y` of the original reversed. -/
theorem derived_direction_mirror :
    (∀ (fs : String → Option Img) (img : Img),
        fs "walk_E.png" = some img → fs "walk_W.png" = none →
        walkRawFrames fs "W" = some (flip_horizontal (load_and_process_frame img))) ∧
    (∀ (gs : String → Option Img) (img : Img),
        gs "idle_W.png" = some img → gs "idle_E.png" = none →
        idleRawFrames gs "E" = some (flip_horizontal (load_and_process_frame img))) ∧
    (∀ f : Img, (flip_horizontal f).width = f.width ∧ (flip_horizontal f).height = f.height ∧
        ∀ x, x < f.width → ∀ y, (flip_horizontal f).pix x y = f.pix (f.width - 1 - x) y) := by
  refine ⟨?_, ?_, ?_⟩
  · intro fs img hE _
    show (walkLoaded fs "E").map flip_horizontal = _
    unfold walkLoaded
    rw [if_pos (by decide)]
    rw [show String.append (String.append "walk_" "E") ".png" = "walk_E.png" from rfl, hE]
    rfl
  · intro gs img hW _
    show (idleLoaded gs "W").map flip_horizontal = _
    unfold idleLoaded
    rw [if_pos (by decide)]
    rw [show String.append (String.append "idle_" "W") ".png" = "idle_W.png" from rfl, hW]
    rfl
  · intro f
    exact ⟨rfl, rfl, fun _ _ _ => rfl⟩

/-- Witness for C8: a file system holding only a concrete east walk frame
and a concrete west idle frame. -/
theorem derived_direction_mirror_witness :
    walkRawFrames (fun n => if n = "walk_E.png" then some (blank 7 5) else none) "W" =
      some (flip_horizontal (load_and_process_frame (blank 7 5))) ∧
    idleRawFrames (fun n => if n = "idle_W.png" then some (blank 7 5) else none) "E" =
      some (flip_horizontal (load_and_process_frame (blank 7 5))) :=
  ⟨derived_direction_mirror.1 (fun n => if n = "walk_E.png" then some (blank 7 5) else none)
      (blank 7 5) (if_pos rfl) (if_neg (by decide)),
   derived_direction_mirror.2.1 (fun n => if n = "idle_W.png" then some (blank 7 5) else none)
      (blank 7 5) (if_pos rfl) (if_neg (by decide))⟩

/-- C10. The walk pipeline never reads `walk_W.png`: its west entry equals
the flipped processed east entry for every file system, and two file
systems agreeing everywhere except at `walk_W.png` load identical walk
frames; symmetrically the idle pipeline never reads `idle_E.png` and
always derives east from west. -/
theorem flip_unconditional_never_reads_source :
    (∀ fs : String → Option Img,
        walkRawFrames fs "W" =
          (fs "walk_E.png").map (fun i => flip_horizontal (load_and_process_frame i))) ∧
    (∀ fs gs : String → Option Img, (∀ n, n ≠ "walk_W.png" → fs n = gs n) →
        ∀ d, walkRawFrames fs d = walkRawFrames gs d) ∧
    (∀ fs : String → Option Img,
        idleRawFrames fs "E" =
          (fs "idle_W.png").map (fun i => flip_horizontal (load_and_process_frame i))) ∧
    (∀ fs gs : String → Option Img, (∀ n, n ≠ "idle_E.png" → fs n = gs n) →
        ∀ d, idleRawFrames fs d = idleRawFrames gs d) := by
  refine ⟨?_, ?_, ?_, ?_⟩
  · intro fs
    show (walkLoaded fs "E").map flip_horizontal = _
    unfold walkLoaded
    rw [if_pos (by decide)]
    rw [show String.append (String.append "walk_" "E") ".png" = "walk_E.png" from rfl]
    cases fs "walk_E.png" <;> rfl
  · intro fs gs h d
    have hload : ∀ dd, walkLoaded fs dd = walkLoaded gs dd := by
      intro dd
      unfold walkLoaded
      by_cases hm : dd ∈ walkDirs
      · rw [if_pos hm, if_pos hm]
        have hm2 : dd = "S" ∨ dd = "N" ∨ dd = "E" ∨ dd = "SE" ∨ dd = "NE" := by
          simpa [walkDirs] using hm
        rcases hm2 with rfl | rfl | rfl | rfl | rfl <;> rw [h _ (by decide)]
      · rw [if_neg hm, if_neg hm]
    unfold walkRawFrames
    by_cases hd : d = "W"
    · rw [if_pos hd, if_pos hd, hload]
    · rw [if_neg hd, if_neg hd, hload]
  · intro fs
    show (idleLoaded fs "W").map flip_horizontal = _
    unfold idleLoaded
    rw [if_pos (by decide)]
    rw [show String.append (String.append "idle_" "W") ".png" = "idle_W.png" from rfl]
    cases fs "idle_W.png" <;> rfl
  · intro fs gs h d
    have hload : ∀ dd, idleLoaded fs dd = idleLoaded gs dd := by
      intro dd
      unfold idleLoaded
      by_cases hm : dd ∈ idleDirs
      · rw [if_pos hm, if_pos hm]
        have hm2 : dd = "S" ∨ dd = "W" ∨ dd = "N" ∨ dd = "NW" ∨ dd = "SE" := by
          simpa [idleDirs] using hm
        rcases hm2 with rfl | rfl | rfl | rfl | rfl <;> rw [h _ (by decide)]
      · rw [if_neg hm, if_neg hm]
    unfold idleRawFrames
    by_cases hd : d = "E"
    · rw [if_pos hd, if_pos hd, hload]
    · rw [if_neg hd, if_neg hd, hload]

/-- Witness for C10: removing a present `walk_W.png` (respectively
`idle_E.png`) from the file system changes no loaded walk (idle) frame. -/
theorem flip_unconditional_never_reads_source_witness :
    walkRawFrames (fun n => if n = "walk_W.png" then some (blank 3 3) else none) "W" =
      walkRawFrames (fun _ => none) "W" ∧
    idleRawFrames (fun n => if n = "idle_E.png" then some (blank 3 3) else none) "E" =
      idleRawFrames (fun _ => none) "E" :=
  ⟨flip_unconditional_never_reads_source.2.1
      (fun n => if n = "walk_W.png" then some (blank 3 3) else none) (fun _ => none)
      (fun _ hn => if_neg hn) "W",
   flip_unconditional_never_reads_source.2.2.2
      (fun n => if n = "idle_E.png" then some (blank 3 3) else none) (fun _ => none)
      (fun _ hn => if_neg hn) "E"⟩

/-- Counterexample for C2: `create_spritesheet` is fatal, not graceful, on
a mapping missing the canonical direction N — `direction_frames[direction]`
raises KeyError, modelled by `none`. -/
theorem create_spritesheet_missing_direction_fails :
    create_spritesheet (fun d => if d = "N" then none else some []) = none := rfl

/-! Lemmas about the sheet assemblers. -/

theorem pasteRow_width (s : Img) (frames : List Img) (row : Nat) :
    (pasteRow s frames row).width = s.width := by
  unfold pasteRow
  generalize frames.enum = l
  induction l generalizing s with
  | nil => rfl
  | cons hd tl ih => simp only [List.foldl_cons]; rw [ih]; rfl

theorem pasteRow_height (s : Img) (frames : List Img) (row : Nat) :
    (pasteRow s frames row).height = s.height := by
  unfold pasteRow
  generalize frames.enum = l
  induction l generalizing s with
  | nil => rfl
  | cons hd tl ih => simp only [List.foldl_cons]; rw [ih]; rfl

theorem idleRowStep_none (f : String → Option Img) (s : Img) (j : Nat) (d : String)
    (hfd : f d = none) : idleRowStep f s (j, d) = s := by
  simp only [idleRowStep, hfd]

theorem idleRowStep_width (f : String → Option Img) (s : Img) (rd : Nat × String) :
    (idleRowStep f s rd).width = s.width := by
  unfold idleRowStep
  cases hfd : f rd.2 <;> rfl

theorem idleRowStep_height (f : String → Option Img) (s : Img) (rd : Nat × String) :
    (idleRowStep f s rd).height = s.height := by
  unfold idleRowStep
  cases hfd : f rd.2 <;> rfl

/-- A row step does not touch pixels outside its own 128-pixel row band,
provided every frame fits its band vertically. -/
theorem idleRowStep_pix_notInBand (f : String → Option Img) (s : Img) (j : Nat) (d : String)
    (hhf : ∀ dd g, f dd = some g → g.height ≤ 128)
    (x y : Nat) (hy : y < j * 128 ∨ j * 128 + 128 ≤ y) :
    (idleRowStep f s (j, d)).pix x y = s.pix x y := by
  simp only [idleRowStep]
  cases hfd : f d with
  | none => rfl
  | some fr =>
      have hh : fr.height ≤ 128 := hhf _ _ hfd
      rw [show List.range 4 = [0, 1, 2, 3] from rfl]
      simp only [List.foldl_cons, List.foldl_nil, paste_pix_eq, paste_width, paste_height]
      split_ifs <;> first | rfl | (exfalso; omega)

/-- One 128-pixel cell paste inside a row: at pixel (col*128+dx, j*128+dy)
the paste at column k acts exactly when k = col and (dx, dy) falls inside
the frame. -/
theorem paste_pix_cell (s fr : Img) (k j col dx dy : Nat)
    (hfw : fr.width ≤ 128) (_hfh : fr.height ≤ 128)
    (hk : k < 4) (hcol : col < 4) (hj : j < 4) (hdx : dx < 128) (hdy : dy < 128)
    (hW : s.width = 512) (hH : s.height = 512) :
    (paste s fr ((k * 128 : Nat) : Int) ((j * 128 : Nat) : Int)).pix
        (col * 128 + dx) (j * 128 + dy) =
      if k = col ∧ dx < fr.width ∧ dy < fr.height then
        blendPixel (s.pix (col * 128 + dx) (j * 128 + dy)) (fr.pix dx dy) (fr.pix dx dy).a
      else s.pix (col * 128 + dx) (j * 128 + dy) := by
  rw [paste_pix_eq]
  split_ifs with h1 h2 h3
  · obtain ⟨rfl, hdx2, hdy2⟩ := h2
    have e1 : ((↑(k * 128 + dx) : Int) - ↑(k * 128)).toNat = dx := by omega
    have e2 : ((↑(j * 128 + dy) : Int) - ↑(j * 128)).toNat = dy := by omega
    rw [e1, e2]
  · exfalso
    apply h2
    refine ⟨by omega, by omega, by omega⟩
  · exfalso
    apply h1
    obtain ⟨rfl, hdx2, hdy2⟩ := h3
    refine ⟨by omega, by omega, by omega, by omega, by omega, by omega⟩
  · rfl

/-- A row step at a present direction: inside the row band, each of the
four cells shows the frame blended onto what was below, which is clear
when the sheet was clear there. -/
theorem idleRowStep_pix_in (f : String → Option Img) (s : Img) (j : Nat) (d : String) (fr : Img)
    (hfd : f d = some fr) (hfw : fr.width ≤ 128) (hfh : fr.height ≤ 128)
    (col dx dy : Nat) (hcol : col < 4) (hj : j < 4) (hdx : dx < 128) (hdy : dy < 128)
    (hW : s.width = 512) (hH : s.height = 512)
    (hclear : s.pix (col * 128 + dx) (j * 128 + dy) = Pixel.clear) :
    (idleRowStep f s (j, d)).pix (col * 128 + dx) (j * 128 + dy) =
      if dx < fr.width ∧ dy < fr.height then
        blendPixel Pixel.clear (fr.pix dx dy) (fr.pix dx dy).a
      else Pixel.clear := by
  simp only [idleRowStep, hfd]
  rw [show List.range 4 = [0, 1, 2, 3] from rfl]
  simp only [List.foldl_cons, List.foldl_nil]
  rw [paste_pix_cell _ fr 3 j col dx dy hfw hfh (by omega) hcol hj hdx hdy
      (by simp only [paste_width]; exact hW) (by simp only [paste_height]; exact hH)]
  rw [paste_pix_cell _ fr 2 j col dx dy hfw hfh (by omega) hcol hj hdx hdy
      (by simp only [paste_width]; exact hW) (by simp only [paste_height]; exact hH)]
  rw [paste_pix_cell _ fr 1 j col dx dy hfw hfh (by omega) hcol hj hdx hdy
      (by simp only [paste_width]; exact hW) (by simp only [paste_height]; exact hH)]
  rw [paste_pix_cell s fr 0 j col dx dy hfw hfh (by omega) hcol hj hdx hdy hW hH]
  rw [hclear]
  by_cases hA : dx < fr.width ∧ dy < fr.height
  · interval_cases col <;> simp [hA]
  · simp [hA]

/-- C1. Any sheet that `create_spritesheet` completes has width
CELL_SIZE × FRAMES and height CELL_SIZE × number of directions (512 × 512),
and the emitted manifest's numeric geometry fields (cell size 128,
4 directions in order S W N E, 4 frames per animation, ground line 110,
safe-zone margin 8) agree with the script's constants and with the raster;
the idle sheet raster is likewise 512 × 512. -/
theorem spritesheet_geometry_matches_manifest (df : String → Option (List Img)) (sheet : Img)
    (hsheet : create_spritesheet df = some sheet) :
    sheet.width = CELL_SIZE * FRAMES ∧
    sheet.height = CELL_SIZE * DIRECTIONS.length ∧
    sheet.width = 512 ∧ sheet.height = 512 ∧
    sheet.width = manifest.cellSize * manifest.walk.frames ∧
    sheet.height = manifest.cellSize * manifest.directions ∧
    manifest.cellSize = CELL_SIZE ∧
    manifest.directions = DIRECTIONS.length ∧
    manifest.directionOrder = DIRECTIONS ∧
    manifest.walk.frames = FRAMES ∧ manifest.idle.frames = FRAMES ∧
    manifest.groundLine = GROUND_LINE ∧ manifest.safeZone.margin = MARGIN ∧
    (∀ f : String → Option Img, (idle_sheet f).width = 512 ∧ (idle_sheet f).height = 512) := by
  have hidle : ∀ f : String → Option Img,
      (idle_sheet f).width = 512 ∧ (idle_sheet f).height = 512 := by
    intro f
    constructor
    · show (idleRowStep f (idleRowStep f (idleRowStep f (idleRowStep f (blank 512 512)
        (0, "S")) (1, "W")) (2, "N")) (3, "E")).width = 512
      rw [idleRowStep_width, idleRowStep_width, idleRowStep_width, idleRowStep_width]
      rfl
    · show (idleRowStep f (idleRowStep f (idleRowStep f (idleRowStep f (blank 512 512)
        (0, "S")) (1, "W")) (2, "N")) (3, "E")).height = 512
      rw [idleRowStep_height, idleRowStep_height, idleRowStep_height, idleRowStep_height]
      rfl
  unfold create_spritesheet at hsheet
  rw [show DIRECTIONS.enum = [(0, "S"), (1, "W"), (2, "N"), (3, "E")] from rfl] at hsheet
  simp only [List.foldlM_cons, List.foldlM_nil] at hsheet
  cases hS : df "S" <;> rw [hS] at hsheet
  · simp at hsheet
  cases hW : df "W" <;> rw [hW] at hsheet
  · simp at hsheet
  cases hN : df "N" <;> rw [hN] at hsheet
  · simp at hsheet
  cases hE : df "E" <;> rw [hE] at hsheet
  · simp at hsheet
  simp only [Option.map_some', Option.some.injEq, Option.bind_eq_bind, Option.some_bind,
    Option.pure_def] at hsheet
  subst hsheet
  refine ⟨?_, ?_, ?_, ?_, ?_, ?_, rfl, rfl, rfl, rfl, rfl, rfl, rfl, hidle⟩
  · rw [pasteRow_width, pasteRow_width, pasteRow_width, pasteRow_width]
    rfl
  · rw [pasteRow_height, pasteRow_height, pasteRow_height, pasteRow_height]
    rfl
  · rw [pasteRow_width, pasteRow_width, pasteRow_width, pasteRow_width]
    decide
  · rw [pasteRow_height, pasteRow_height, pasteRow_height, pasteRow_height]
    decide
  · rw [pasteRow_width, pasteRow_width, pasteRow_width, pasteRow_width]
    decide
  · rw [pasteRow_height, pasteRow_height, pasteRow_height, pasteRow_height]
    decide

/-- Witness for C1 at a mapping holding an empty frame list for every
direction, whose assembled sheet is the transparent 512-by-512 raster. -/
theorem spritesheet_geometry_matches_manifest_witness :
    (blank 512 512).width = CELL_SIZE * FRAMES ∧
    (blank 512 512).height = CELL_SIZE * DIRECTIONS.length ∧
    (blank 512 512).width = 512 ∧ (blank 512 512).height = 512 ∧
    (blank 512 512).width = manifest.cellSize * manifest.walk.frames ∧
    (blank 512 512).height = manifest.cellSize * manifest.directions ∧
    manifest.cellSize = CELL_SIZE ∧
    manifest.directions = DIRECTIONS.length ∧
    manifest.directionOrder = DIRECTIONS ∧
    manifest.walk.frames = FRAMES ∧ manifest.idle.frames = FRAMES ∧
    manifest.groundLine = GROUND_LINE ∧ manifest.safeZone.margin = MARGIN ∧
    (∀ f : String → Option Img, (idle_sheet f).width = 512 ∧ (idle_sheet f).height = 512) :=
  spritesheet_geometry_matches_manifest (fun _ => some []) (blank 512 512) rfl

/-- C2 (amended). A canonical direction absent from the mapping is handled
differently by the two assemblers: the idle-sheet assembly skips it and
leaves its 128-pixel row fully transparent (given every provided frame
fits its row), while the walk assembler `create_spritesheet` fails with a
KeyError (modelled by `none`) instead of succeeding. -/
theorem missing_direction_idle_transparent_walk_fatal :
    (∀ (f : String → Option Img) (i : Nat) (d : String),
        (∀ dd g, f dd = some g → g.height ≤ 128) →
        (i, d) ∈ DIRECTIONS.enum → f d = none →
        ∀ x dy, dy < 128 → (idle_sheet f).pix x (i * 128 + dy) = Pixel.clear) ∧
    (∀ (df : String → Option (List Img)) (d : String),
        d ∈ DIRECTIONS → df d = none → create_spritesheet df = none) := by
  constructor
  · intro f i d hhf hmem hnone x dy hdy
    rw [show DIRECTIONS.enum = [(0, "S"), (1, "W"), (2, "N"), (3, "E")] from rfl] at hmem
    have hs : idle_sheet f =
        idleRowStep f (idleRowStep f (idleRowStep f (idleRowStep f (blank 512 512)
          (0, "S")) (1, "W")) (2, "N")) (3, "E") := rfl
    simp only [List.mem_cons, List.not_mem_nil, or_false, Prod.mk.injEq] at hmem
    rw [hs]
    rcases hmem with ⟨rfl, rfl⟩ | ⟨rfl, rfl⟩ | ⟨rfl, rfl⟩ | ⟨rfl, rfl⟩
    · rw [idleRowStep_pix_notInBand f _ 3 "E" hhf _ _ (by omega),
        idleRowStep_pix_notInBand f _ 2 "N" hhf _ _ (by omega),
        idleRowStep_pix_notInBand f _ 1 "W" hhf _ _ (by omega),
        idleRowStep_none f _ 0 "S" hnone]
      rfl
    · rw [idleRowStep_pix_notInBand f _ 3 "E" hhf _ _ (by omega),
        idleRowStep_pix_notInBand f _ 2 "N" hhf _ _ (by omega),
        idleRowStep_none f _ 1 "W" hnone,
        idleRowStep_pix_notInBand f _ 0 "S" hhf _ _ (by omega)]
      rfl
    · rw [idleRowStep_pix_notInBand f _ 3 "E" hhf _ _ (by omega),
        idleRowStep_none f _ 2 "N" hnone,
        idleRowStep_pix_notInBand f _ 1 "W" hhf _ _ (by omega),
        idleRowStep_pix_notInBand f _ 0 "S" hhf _ _ (by omega)]
      rfl
    · rw [idleRowStep_none f _ 3 "E" hnone,
        idleRowStep_pix_notInBand f _ 2 "N" hhf _ _ (by omega),
        idleRowStep_pix_notInBand f _ 1 "W" hhf _ _ (by omega),
        idleRowStep_pix_notInBand f _ 0 "S" hhf _ _ (by omega)]
      rfl
  · intro df d hd hnone
    unfold create_spritesheet
    rw [show DIRECTIONS.enum = [(0, "S"), (1, "W"), (2, "N"), (3, "E")] from rfl]
    simp only [List.foldlM_cons, List.foldlM_nil]
    simp only [DIRECTIONS, List.mem_cons, List.not_mem_nil, or_false] at hd
    rcases hd with rfl | rfl | rfl | rfl
    · simp [hnone]
    · cases hS : df "S" <;> simp [hS, hnone]
    · cases hS : df "S" <;> cases hW : df "W" <;> simp [hS, hW, hnone]
    · cases hS : df "S" <;> cases hW : df "W" <;> cases hN : df "N" <;>
        simp [hS, hW, hN, hnone]

/-- Witness for C2 (amended): with no idle frame present, row 2 of the
idle sheet is transparent at a sample pixel, and the walk assembler fails
on a mapping missing W. -/
theorem missing_direction_idle_transparent_walk_fatal_witness :
    (idle_sheet (fun _ => none)).pix 7 (2 * 128 + 5) = Pixel.clear ∧
    create_spritesheet (fun d => if d = "W" then none else some []) = none :=
  ⟨missing_direction_idle_transparent_walk_fatal.1 (fun _ => none) 2 "N"
      (fun _ _ h => Option.noConfusion h) (by decide) rfl 7 5 (by decide),
   missing_direction_idle_transparent_walk_fatal.2
      (fun d => if d = "W" then none else some []) "W" (by decide) (if_pos rfl)⟩

/-- C6. `create_walk_variations` returns exactly four frames: frames 0 and
2 are the base unchanged; frame 1 is the base shifted down 3 pixels onto a
fresh transparent canvas of the same size, masked by the base's own alpha,
with shifted-out pixels clipped; frame 3 is the base shifted up 2 pixels;
and the idle sheet instead places the unshifted base frame in all four
cycle positions of its direction's row. -/
theorem walk_variations_spec (base : Img) (idle_frames : String → Option Img)
    (fr : Img) (i : Nat) (d : String)
    (hsz : ∀ dd g, idle_frames dd = some g → g.width ≤ 128 ∧ g.height ≤ 128)
    (hmem : (i, d) ∈ DIRECTIONS.enum) (hfd : idle_frames d = some fr) :
    (create_walk_variations base).length = 4 ∧
    (create_walk_variations base).getD 0 (blank 0 0) = base ∧
    (create_walk_variations base).getD 2 (blank 0 0) = base ∧
    ((create_walk_variations base).getD 1 (blank 0 0)).width = base.width ∧
    ((create_walk_variations base).getD 1 (blank 0 0)).height = base.height ∧
    ((create_walk_variations base).getD 3 (blank 0 0)).width = base.width ∧
    ((create_walk_variations base).getD 3 (blank 0 0)).height = base.height ∧
    (∀ x, x < base.width → ∀ y, y < base.height →
      ((create_walk_variations base).getD 1 (blank 0 0)).pix x y =
        if 3 ≤ y then blendPixel Pixel.clear (base.pix x (y - 3)) (base.pix x (y - 3)).a
        else Pixel.clear) ∧
    (∀ x, x < base.width → ∀ y, y < base.height →
      ((create_walk_variations base).getD 3 (blank 0 0)).pix x y =
        if y + 2 < base.height then
          blendPixel Pixel.clear (base.pix x (y + 2)) (base.pix x (y + 2)).a
        else Pixel.clear) ∧
    (∀ col, col < 4 → ∀ dx, dx < 128 → ∀ dy, dy < 128 →
      (idle_sheet idle_frames).pix (col * 128 + dx) (i * 128 + dy) =
        if dx < fr.width ∧ dy < fr.height then
          blendPixel Pixel.clear (fr.pix dx dy) (fr.pix dx dy).a
        else Pixel.clear) := by
  refine ⟨rfl, rfl, rfl, rfl, rfl, rfl, rfl, ?_, ?_, ?_⟩
  · intro x hx y hy
    show (paste (blank base.width base.height) base 0 3).pix x y = _
    rw [paste_pix_eq]
    simp only [blank_width, blank_height, blank_pix]
    by_cases h3 : 3 ≤ y
    · rw [if_pos (by omega), if_pos h3]
      have e1 : ((x : Int) - 0).toNat = x := by omega
      have e2 : ((y : Int) - 3).toNat = y - 3 := by omega
      rw [e1, e2]
    · rw [if_neg (by omega), if_neg h3]
  · intro x hx y hy
    show (paste (blank base.width base.height) base 0 (-2)).pix x y = _
    rw [paste_pix_eq]
    simp only [blank_width, blank_height, blank_pix]
    by_cases h2 : y + 2 < base.height
    · rw [if_pos (by omega), if_pos h2]
      have e1 : ((x : Int) - 0).toNat = x := by omega
      have e2 : ((y : Int) - (-2)).toNat = y + 2 := by omega
      rw [e1, e2]
    · rw [if_neg (by omega), if_neg h2]
  · intro col hcol dx hdx dy hdy
    obtain ⟨hfw, hfh⟩ := hsz d fr hfd
    rw [show DIRECTIONS.enum = [(0, "S"), (1, "W"), (2, "N"), (3, "E")] from rfl] at hmem
    have hs : idle_sheet idle_frames =
        idleRowStep idle_frames (idleRowStep idle_frames (idleRowStep idle_frames
          (idleRowStep idle_frames (blank 512 512) (0, "S")) (1, "W")) (2, "N")) (3, "E") := rfl
    have hhf : ∀ dd g, idle_frames dd = some g → g.height ≤ 128 :=
      fun dd g h => (hsz dd g h).2
    simp only [List.mem_cons, List.not_mem_nil, or_false, Prod.mk.injEq] at hmem
    rw [hs]
    have hb1w : (idleRowStep idle_frames (blank 512 512) (0, "S")).width = 512 := by
      rw [idleRowStep_width]; rfl
    have hb1h : (idleRowStep idle_frames (blank 512 512) (0, "S")).height = 512 := by
      rw [idleRowStep_height]; rfl
    have hb2w : (idleRowStep idle_frames (idleRowStep idle_frames (blank 512 512)
        (0, "S")) (1, "W")).width = 512 := by
      rw [idleRowStep_width, idleRowStep_width]; rfl
    have hb2h : (idleRowStep idle_frames (idleRowStep idle_frames (blank 512 512)
        (0, "S")) (1, "W")).height = 512 := by
      rw [idleRowStep_height, idleRowStep_height]; rfl
    have hb3w : (idleRowStep idle_frames (idleRowStep idle_frames (idleRowStep idle_frames
        (blank 512 512) (0, "S")) (1, "W")) (2, "N")).width = 512 := by
      rw [idleRowStep_width, idleRowStep_width, idleRowStep_width]; rfl
    have hb3h : (idleRowStep idle_frames (idleRowStep idle_frames (idleRowStep idle_frames
        (blank 512 512) (0, "S")) (1, "W")) (2, "N")).height = 512 := by
      rw [idleRowStep_height, idleRowStep_height, idleRowStep_height]; rfl
    rcases hmem with ⟨rfl, rfl⟩ | ⟨rfl, rfl⟩ | ⟨rfl, rfl⟩ | ⟨rfl, rfl⟩
    · rw [idleRowStep_pix_notInBand idle_frames _ 3 "E" hhf _ _ (by omega),
        idleRowStep_pix_notInBand idle_frames _ 2 "N" hhf _ _ (by omega),
        idleRowStep_pix_notInBand idle_frames _ 1 "W" hhf _ _ (by omega)]
      exact idleRowStep_pix_in idle_frames _ 0 "S" fr hfd hfw hfh col dx dy hcol
        (by omega) hdx hdy rfl rfl rfl
    · rw [idleRowStep_pix_notInBand idle_frames _ 3 "E" hhf _ _ (by omega),
        idleRowStep_pix_notInBand idle_frames _ 2 "N" hhf _ _ (by omega)]
      rw [idleRowStep_pix_in idle_frames _ 1 "W" fr hfd hfw hfh col dx dy hcol
        (by omega) hdx hdy hb1w hb1h
        (by rw [idleRowStep_pix_notInBand idle_frames _ 0 "S" hhf _ _ (by omega)]; rfl)]
    · rw [idleRowStep_pix_notInBand idle_frames _ 3 "E" hhf _ _ (by omega)]
      rw [idleRowStep_pix_in idle_frames _ 2 "N" fr hfd hfw hfh col dx dy hcol
        (by omega) hdx hdy hb2w hb2h
        (by rw [idleRowStep_pix_notInBand idle_frames _ 1 "W" hhf _ _ (by omega),
              idleRowStep_pix_notInBand idle_frames _ 0 "S" hhf _ _ (by omega)]; rfl)]
    · rw [idleRowStep_pix_in idle_frames _ 3 "E" fr hfd hfw hfh col dx dy hcol
        (by omega) hdx hdy hb3w hb3h
        (by rw [idleRowStep_pix_notInBand idle_frames _ 2 "N" hhf _ _ (by omega),
              idleRowStep_pix_notInBand idle_frames _ 1 "W" hhf _ _ (by omega),
              idleRowStep_pix_notInBand idle_frames _ 0 "S" hhf _ _ (by omega)]; rfl)]

/-- Witness for C6 at a concrete base frame and an idle mapping holding
one small frame for direction S. -/
theorem walk_variations_spec_witness :
    (create_walk_variations (blank 4 4)).length = 4 :=
  (walk_variations_spec (blank 4 4) (fun d => if d = "S" then some (blank 2 2) else none)
      (blank 2 2) 0 "S"
      (fun dd g h => by
        have h2 : (if dd = "S" then some (blank 2 2) else none) = some g := h
        by_cases hdd : dd = "S"
        · rw [if_pos hdd] at h2
          injection h2 with h3
          subst h3
          exact ⟨by decide, by decide⟩
        · rw [if_neg hdd] at h2
          exact Option.noConfusion h2)
      (by decide) (if_pos rfl)).1

/-! Lemmas about sorted lists, for the bounding-box computation. -/

theorem exists_head?_some : ∀ {l : List Nat}, l ≠ [] → ∃ b, l.head? = some b
  | [], h => absurd rfl h
  | c :: _, _ => ⟨c, rfl⟩

theorem exists_getLast?_some : ∀ {l : List Nat}, l ≠ [] → ∃ b, l.getLast? = some b
  | [], h => absurd rfl h
  | [c], _ => ⟨c, List.getLast?_singleton c⟩
  | c :: d :: tl, _ => by
      obtain ⟨b, hb⟩ := @exists_getLast?_some (d :: tl) (by simp)
      exact ⟨b, by rw [List.getLast?_cons_cons]; exact hb⟩

theorem head?_mem_of_eq {l : List Nat} {a : Nat} (h : l.head? = some a) : a ∈ l := by
  cases l with
  | nil => cases h
  | cons b tl =>
      injection h with h2
      subst h2
      exact List.mem_cons_self _ _

theorem getLast?_mem_of_eq : ∀ {l : List Nat} {a : Nat}, l.getLast? = some a → a ∈ l
  | [], _, h => by cases h
  | [c], a, h => by
      simp only [List.getLast?_singleton, Option.some.injEq] at h
      subst h
      exact List.mem_cons_self _ _
  | c :: d :: tl, a, h => by
      rw [List.getLast?_cons_cons] at h
      exact List.mem_cons_of_mem _ (getLast?_mem_of_eq h)

theorem sorted_head?_le {l : List Nat} {a b : Nat} (hs : l.Pairwise (· < ·))
    (ha : l.head? = some a) (hb : b ∈ l) : a ≤ b := by
  cases l with
  | nil => cases ha
  | cons c tl =>
      injection ha with h2
      subst h2
      rcases List.mem_cons.mp hb with rfl | hbtl
      · exact le_refl _
      · exact le_of_lt ((List.pairwise_cons.mp hs).1 _ hbtl)

theorem sorted_le_getLast? : ∀ {l : List Nat} {a b : Nat}, l.Pairwise (· < ·) →
    l.getLast? = some a → b ∈ l → b ≤ a
  | [], _, _, _, ha, _ => by cases ha
  | [c], a, b, _, ha, hb => by
      simp only [List.getLast?_singleton, Option.some.injEq] at ha
      subst ha
      rcases List.mem_cons.mp hb with rfl | h
      · exact le_refl _
      · exact absurd h (List.not_mem_nil b)
  | c :: d :: tl, a, b, hs, ha, hb => by
      rw [List.getLast?_cons_cons] at ha
      rcases List.mem_cons.mp hb with rfl | hbtl
      · exact le_of_lt ((List.pairwise_cons.mp hs).1 _ (getLast?_mem_of_eq ha))
      · exact sorted_le_getLast? (List.pairwise_cons.mp hs).2 ha hbtl

theorem colHas_iff (img : Img) (x : Nat) :
    colHas img x = true ↔ ∃ y, y < img.height ∧ (img.pix x y).a ≠ 0 := by
  simp [colHas, List.any_eq_true, List.mem_range, bne_iff_ne]

theorem rowHas_iff (img : Img) (y : Nat) :
    rowHas img y = true ↔ ∃ x, x < img.width ∧ (img.pix x y).a ≠ 0 := by
  simp [rowHas, List.any_eq_true, List.mem_range, bne_iff_ne]

theorem mem_filter_colHas (img : Img) (x : Nat) :
    x ∈ (List.range img.width).filter (colHas img) ↔
      x < img.width ∧ ∃ y, y < img.height ∧ (img.pix x y).a ≠ 0 := by
  rw [List.mem_filter, List.mem_range, colHas_iff]

theorem mem_filter_rowHas (img : Img) (y : Nat) :
    y ∈ (List.range img.height).filter (rowHas img) ↔
      y < img.height ∧ ∃ x, x < img.width ∧ (img.pix x y).a ≠ 0 := by
  rw [List.mem_filter, List.mem_range, rowHas_iff]

theorem filter_colHas_nil_iff (img : Img) :
    (List.range img.width).filter (colHas img) = [] ↔
      ∀ x, x < img.width → ∀ y, y < img.height → (img.pix x y).a = 0 := by
  rw [List.filter_eq_nil_iff]
  constructor
  · intro h x hx y hy
    by_contra hne
    exact h x (List.mem_range.mpr hx) ((colHas_iff img x).mpr ⟨y, hy, hne⟩)
  · intro h x hx hcol
    obtain ⟨y, hy, hne⟩ := (colHas_iff img x).mp hcol
    exact hne (h x (List.mem_range.mp hx) y hy)

/-- C4. `crop_to_content` returns a fully transparent frame unchanged (so
with identical dimensions), and otherwise crops to the smallest rectangle
containing every nonzero-alpha pixel, expanded by the padding on each side
and clamped to the raster bounds (natural subtraction models the clamping
at zero). -/
theorem crop_to_content_spec (img : Img) (padding : Nat) :
    ((∀ x, x < img.width → ∀ y, y < img.height → (img.pix x y).a = 0) →
        crop_to_content img padding = img) ∧
    ((∃ x, x < img.width ∧ ∃ y, y < img.height ∧ (img.pix x y).a ≠ 0) →
        ∃ l t r b, IsTightBBox img l t r b ∧
          crop_to_content img padding =
            cropRect img (l - padding) (t - padding)
              (min img.width (r + padding)) (min img.height (b + padding))) := by
  constructor
  · intro hall
    have hxs : (List.range img.width).filter (colHas img) = [] :=
      (filter_colHas_nil_iff img).mpr hall
    have hbbox : getbbox img = none := by
      unfold getbbox
      rw [hxs]
      rfl
    unfold crop_to_content
    rw [hbbox]
  · intro hex
    obtain ⟨x0, hx0, y0, hy0, hne⟩ := hex
    have hx0mem : x0 ∈ (List.range img.width).filter (colHas img) :=
      (mem_filter_colHas img x0).mpr ⟨hx0, y0, hy0, hne⟩
    have hy0mem : y0 ∈ (List.range img.height).filter (rowHas img) :=
      (mem_filter_rowHas img y0).mpr ⟨hy0, x0, hx0, hne⟩
    have hxs_ne : (List.range img.width).filter (colHas img) ≠ [] := by
      intro hnil
      rw [hnil] at hx0mem
      exact List.not_mem_nil _ hx0mem
    have hys_ne : (List.range img.height).filter (rowHas img) ≠ [] := by
      intro hnil
      rw [hnil] at hy0mem
      exact List.not_mem_nil _ hy0mem
    obtain ⟨l, hl⟩ := exists_head?_some hxs_ne
    obtain ⟨t0, ht0⟩ := exists_head?_some hys_ne
    obtain ⟨r0, hr0⟩ := exists_getLast?_some hxs_ne
    obtain ⟨b0, hb0⟩ := exists_getLast?_some hys_ne
    have hxs_pw : ((List.range img.width).filter (colHas img)).Pairwise (· < ·) :=
      (List.pairwise_lt_range _).filter _
    have hys_pw : ((List.range img.height).filter (rowHas img)).Pairwise (· < ·) :=
      (List.pairwise_lt_range _).filter _
    have hbbox : getbbox img = some (l, t0, r0 + 1, b0 + 1) := by
      unfold getbbox
      rw [hl, ht0, hr0, hb0]
    refine ⟨l, t0, r0 + 1, b0 + 1, ⟨?_, ?_, ?_, ?_, ?_⟩, ?_⟩
    · intro x hx y hy hne2
      have hxm : x ∈ (List.range img.width).filter (colHas img) :=
        (mem_filter_colHas img x).mpr ⟨hx, y, hy, hne2⟩
      have hym : y ∈ (List.range img.height).filter (rowHas img) :=
        (mem_filter_rowHas img y).mpr ⟨hy, x, hx, hne2⟩
      have h1 := sorted_head?_le hxs_pw hl hxm
      have h2 := sorted_le_getLast? hxs_pw hr0 hxm
      have h3 := sorted_head?_le hys_pw ht0 hym
      have h4 := sorted_le_getLast? hys_pw hb0 hym
      exact ⟨h1, by omega, h3, by omega⟩
    · obtain ⟨hlw, yw, hyw, hnew⟩ := (mem_filter_colHas img l).mp (head?_mem_of_eq hl)
      exact ⟨l, yw, hlw, hyw, hnew, rfl⟩
    · obtain ⟨hrw, yw, hyw, hnew⟩ := (mem_filter_colHas img r0).mp (getLast?_mem_of_eq hr0)
      exact ⟨r0, yw, hrw, hyw, hnew, rfl⟩
    · obtain ⟨hth, xw, hxw, hnew⟩ := (mem_filter_rowHas img t0).mp (head?_mem_of_eq ht0)
      exact ⟨xw, t0, hxw, hth, hnew, rfl⟩
    · obtain ⟨hbh, xw, hxw, hnew⟩ := (mem_filter_rowHas img b0).mp (getLast?_mem_of_eq hb0)
      exact ⟨xw, b0, hxw, hbh, hnew, rfl⟩
    · unfold crop_to_content
      rw [hbbox]

/-- Witness for C4 at a concrete 1-by-1 opaque raster with padding 1. -/
theorem crop_to_content_spec_witness :
    ∃ l t r b, IsTightBBox ⟨1, 1, fun _ _ => ⟨0, 0, 0, 255⟩⟩ l t r b ∧
      crop_to_content ⟨1, 1, fun _ _ => ⟨0, 0, 0, 255⟩⟩ 1 =
        cropRect ⟨1, 1, fun _ _ => ⟨0, 0, 0, 255⟩⟩ (l - 1) (t - 1)
          (min 1 (r + 1)) (min 1 (b + 1)) :=
  (crop_to_content_spec ⟨1, 1, fun _ _ => ⟨0, 0, 0, 255⟩⟩ 1).2
    ⟨0, by decide, 0, by decide, by decide⟩


theorem thumbnailSize_spec (w h : Nat) (hw : 0 < w) (hh : 0 < h) :
    (thumbnailSize w h 112 112).1 ≤ 112 ∧ (thumbnailSize w h 112 112).2 ≤ 112 ∧
    (thumbnailSize w h 112 112).1 ≤ w ∧ (thumbnailSize w h 112 112).2 ≤ h ∧
    (((thumbnailSize w h 112 112).1 : Int) * h - (w : Int) * (thumbnailSize w h 112 112).2).natAbs
      ≤ max w h := by
  simp only [thumbnailSize]
  split_ifs with hfit hbr hkey1 hkey2
  · refine ⟨hfit.1, hfit.2, le_refl _, le_refl _, ?_⟩
    show ((w : Int) * h - (w : Int) * h).natAbs ≤ max w h
    simp
  · -- branch 1, floor chosen: result (max (112*w/h) 1, 112)
    have hwh : w ≤ h := by omega
    have hh112 : 112 < h := by omega
    have hdm := Nat.div_add_mod (112 * w) h
    have hml := Nat.mod_lt (112 * w) hh
    have hF112 : 112 * w / h ≤ 112 := by
      calc 112 * w / h ≤ 112 * h / h := Nat.div_le_div_right hbr
      _ = 112 := Nat.mul_div_cancel 112 hh
    have hFw : 112 * w / h ≤ w := by
      calc 112 * w / h ≤ h * w / h := Nat.div_le_div_right (Nat.mul_le_mul_right w (le_of_lt hh112))
      _ = w := Nat.mul_div_cancel_left w hh
    refine ⟨?_, ?_, ?_, ?_, ?_⟩
    · show max (112 * w / h) 1 ≤ 112
      exact max_le hF112 (by omega)
    · show (112 : Nat) ≤ 112
      exact le_refl _
    · show max (112 * w / h) 1 ≤ w
      exact max_le hFw hw
    · show (112 : Nat) ≤ h
      exact le_of_lt hh112
    · show (((max (112 * w / h) 1 : Nat) : Int) * h - (w : Int) * ((112 : Nat) : Int)).natAbs ≤ max w h
      by_cases hF0 : 112 * w / h = 0
      · rw [hF0] at hdm
        rw [hF0]
        have hsmall : 112 * w < h := by omega
        simp only [Nat.max_eq_right (Nat.zero_le 1)]
        omega
      · rw [Nat.max_eq_left (Nat.one_le_iff_ne_zero.mpr hF0)]
        have h5 : h * (112 * w / h) ≤ 112 * w := Nat.le.intro hdm
        have h6 : 112 * w < h * (112 * w / h) + h := by
          calc 112 * w = h * (112 * w / h) + 112 * w % h := hdm.symm
          _ < h * (112 * w / h) + h := Nat.add_lt_add_left hml _
        zify at h5 h6
        rw [mul_comm ((112 * w / h : Nat) : Int) (h : Int)]
        set HF := (h : Int) * ((112 * w / h : Nat) : Int) with hHF
        omega
  · -- branch 1, ceiling chosen: result (max ((112*w + h - 1)/h) 1, 112)
    have hwh : w ≤ h := by omega
    have hh112 : 112 < h := by omega
    have hdm2 := Nat.div_add_mod (112 * w + h - 1) h
    have hml2 := Nat.mod_lt (112 * w + h - 1) hh
    have hqC : 112 * w ≤ h * ((112 * w + h - 1) / h) := by omega
    have hCub : h * ((112 * w + h - 1) / h) ≤ 112 * w + h - 1 := by omega
    have hC1 : 1 ≤ (112 * w + h - 1) / h := by
      rcases Nat.eq_zero_or_pos ((112 * w + h - 1) / h) with hC0 | hCp
      · exfalso
        rw [hC0, Nat.mul_zero] at hqC
        omega
      · exact hCp
    have hC112 : (112 * w + h - 1) / h ≤ 112 := by
      have hstep : h * ((112 * w + h - 1) / h) < h * 113 := by omega
      exact Nat.le_of_lt_succ (Nat.lt_of_mul_lt_mul_left hstep)
    have hCw : (112 * w + h - 1) / h ≤ w := by
      have hmul : 112 * w ≤ h * w := Nat.mul_le_mul_right w (le_of_lt hh112)
      have hstep : h * ((112 * w + h - 1) / h) < h * (w + 1) := by
        calc h * ((112 * w + h - 1) / h) ≤ 112 * w + h - 1 := hCub
        _ < 112 * w + h := by omega
        _ ≤ h * w + h := Nat.add_le_add_right hmul h
        _ = h * (w + 1) := by ring
      exact Nat.le_of_lt_succ (Nat.lt_of_mul_lt_mul_left hstep)
    refine ⟨?_, ?_, ?_, ?_, ?_⟩
    · show max ((112 * w + h - 1) / h) 1 ≤ 112
      exact max_le hC112 (by omega)
    · show (112 : Nat) ≤ 112
      exact le_refl _
    · show max ((112 * w + h - 1) / h) 1 ≤ w
      exact max_le hCw hw
    · show (112 : Nat) ≤ h
      omega
    · show (((max ((112 * w + h - 1) / h) 1 : Nat) : Int) * h -
          (w : Int) * ((112 : Nat) : Int)).natAbs ≤ max w h
      rw [Nat.max_eq_left hC1]
      have hCub2 : h * ((112 * w + h - 1) / h) + 1 ≤ 112 * w + h := by omega
      zify at hqC hCub2
      rw [mul_comm (((112 * w + h - 1) / h : Nat) : Int) (h : Int)]
      set HC := (h : Int) * (((112 * w + h - 1) / h : Nat) : Int) with hHC
      omega
  · -- branch 2, floor chosen: result (112, max (112*h/w) 1)
    have hhw : h < w := by omega
    have hw112 : 112 < w := by omega
    have hdm := Nat.div_add_mod (112 * h) w
    have hml := Nat.mod_lt (112 * h) hw
    have hF112 : 112 * h / w ≤ 112 := by
      calc 112 * h / w ≤ 112 * w / w := Nat.div_le_div_right (by omega)
      _ = 112 := Nat.mul_div_cancel 112 hw
    have hFh : 112 * h / w ≤ h := by
      calc 112 * h / w ≤ w * h / w := Nat.div_le_div_right (Nat.mul_le_mul_right h (le_of_lt hw112))
      _ = h := Nat.mul_div_cancel_left h hw
    refine ⟨?_, ?_, ?_, ?_, ?_⟩
    · show (112 : Nat) ≤ 112
      exact le_refl _
    · show max (112 * h / w) 1 ≤ 112
      exact max_le hF112 (by omega)
    · show (112 : Nat) ≤ w
      omega
    · show max (112 * h / w) 1 ≤ h
      exact max_le hFh hh
    · show (((112 : Nat) : Int) * h - (w : Int) * ((max (112 * h / w) 1 : Nat) : Int)).natAbs
        ≤ max w h
      rw [Nat.max_eq_left hkey2.1]
      have h5 : w * (112 * h / w) ≤ 112 * h := Nat.le.intro hdm
      have h6 : 112 * h < w * (112 * h / w) + w := by
        calc 112 * h = w * (112 * h / w) + 112 * h % w := hdm.symm
        _ < w * (112 * h / w) + w := Nat.add_lt_add_left hml _
      zify at h5 h6
      set HF := (w : Int) * ((112 * h / w : Nat) : Int) with hHF
      omega
  · -- branch 2, ceiling chosen: result (112, max ((112*h + w - 1)/w) 1)
    have hhw : h < w := by omega
    have hw112 : 112 < w := by omega
    have hdm2 := Nat.div_add_mod (112 * h + w - 1) w
    have hml2 := Nat.mod_lt (112 * h + w - 1) hw
    have hqC : 112 * h ≤ w * ((112 * h + w - 1) / w) := by omega
    have hCub : w * ((112 * h + w - 1) / w) ≤ 112 * h + w - 1 := by omega
    have hC1 : 1 ≤ (112 * h + w - 1) / w := by
      rcases Nat.eq_zero_or_pos ((112 * h + w - 1) / w) with hC0 | hCp
      · exfalso
        rw [hC0, Nat.mul_zero] at hqC
        omega
      · exact hCp
    have hC112 : (112 * h + w - 1) / w ≤ 112 := by
      have hstep : w * ((112 * h + w - 1) / w) < w * 113 := by omega
      exact Nat.le_of_lt_succ (Nat.lt_of_mul_lt_mul_left hstep)
    have hCh : (112 * h + w - 1) / w ≤ h := by
      have hmul : 112 * h ≤ w * h := Nat.mul_le_mul_right h (le_of_lt hw112)
      have hstep : w * ((112 * h + w - 1) / w) < w * (h + 1) := by
        calc w * ((112 * h + w - 1) / w) ≤ 112 * h + w - 1 := hCub
        _ < 112 * h + w := by omega
        _ ≤ w * h + w := Nat.add_le_add_right hmul w
        _ = w * (h + 1) := by ring
      exact Nat.le_of_lt_succ (Nat.lt_of_mul_lt_mul_left hstep)
    refine ⟨?_, ?_, ?_, ?_, ?_⟩
    · show (112 : Nat) ≤ 112
      exact le_refl _
    · show max ((112 * h + w - 1) / w) 1 ≤ 112
      exact max_le hC112 (by omega)
    · show (112 : Nat) ≤ w
      omega
    · show max ((112 * h + w - 1) / w) 1 ≤ h
      exact max_le hCh hh
    · show (((112 : Nat) : Int) * h -
          (w : Int) * ((max ((112 * h + w - 1) / w) 1 : Nat) : Int)).natAbs ≤ max w h
      rw [Nat.max_eq_left hC1]
      have hCub2 : w * ((112 * h + w - 1) / w) + 1 ≤ 112 * h + w := by omega
      zify at hqC hCub2
      set HC := (w : Int) * (((112 * h + w - 1) / w : Nat) : Int) with hHC
      omega

/-- C5. `center_in_cell` with cell size 128 returns an exactly 128-by-128
cell; the frame is scaled so that neither dimension exceeds 128 − 16 and
is never upscaled, with the two dimensions within one rounding step of the
source aspect ratio; the scaled frame is horizontally centred (left offset
(128 − tw) / 2), its bottom edge sits at row 120 = 128 − MARGIN, it is
composited over a fresh canvas with its own alpha as the paste mask, and
every pixel outside it is fully transparent. -/
theorem center_in_cell_spec (img : Img) (tw th : Nat) (hw : 0 < img.width)
    (hh : 0 < img.height) (hts : thumbnailSize img.width img.height 112 112 = (tw, th)) :
    (center_in_cell img 128).width = 128 ∧
    (center_in_cell img 128).height = 128 ∧
    tw ≤ 112 ∧ th ≤ 112 ∧ tw ≤ img.width ∧ th ≤ img.height ∧
    ((tw : Int) * img.height - (img.width : Int) * th).natAbs ≤ max img.width img.height ∧
    (120 - th) + th = 128 - MARGIN ∧
    (∀ px, px < 128 → ∀ py, py < 128 →
      (center_in_cell img 128).pix px py =
        if (128 - tw) / 2 ≤ px ∧ px < (128 - tw) / 2 + tw ∧ 120 - th ≤ py ∧ py < 120 then
          blendPixel Pixel.clear
            ((resizePixel img tw th).pix (px - (128 - tw) / 2) (py - (120 - th)))
            ((resizePixel img tw th).pix (px - (128 - tw) / 2) (py - (120 - th))).a
        else Pixel.clear) := by
  have hspec := thumbnailSize_spec img.width img.height hw hh
  rw [hts] at hspec
  obtain ⟨h1, h2, h3, h4, h5⟩ := hspec
  have h1 : tw ≤ 112 := h1
  have h2 : th ≤ 112 := h2
  have h3 : tw ≤ img.width := h3
  have h4 : th ≤ img.height := h4
  have h5 : ((tw : Int) * img.height - (img.width : Int) * th).natAbs
      ≤ max img.width img.height := h5
  have hcc : center_in_cell img 128 =
      paste (blank 128 128)
        (resizePixel img (thumbnailSize img.width img.height 112 112).1
          (thumbnailSize img.width img.height 112 112).2)
        (((128 : Int) - ((thumbnailSize img.width img.height 112 112).1 : Int)) / 2)
        ((128 : Int) - ((thumbnailSize img.width img.height 112 112).2 : Int) - 8) := rfl
  rw [hts] at hcc
  have hcc2 : center_in_cell img 128 =
      paste (blank 128 128) (resizePixel img tw th)
        (((128 : Int) - (tw : Int)) / 2) ((128 : Int) - (th : Int) - 8) := hcc
  have hM : MARGIN = 8 := rfl
  refine ⟨by rw [hcc2]; rfl, by rw [hcc2]; rfl, h1, h2, h3, h4, h5, by omega, ?_⟩
  intro px hpx py hpy
  rw [hcc2, paste_pix_eq]
  simp only [resizePixel_width, resizePixel_height, blank_width, blank_height, blank_pix]
  have hx0 : ((128 : Int) - (tw : Int)) / 2 = (((128 - tw) / 2 : Nat) : Int) := by omega
  have hy0 : (128 : Int) - (th : Int) - 8 = (((120 - th : Nat)) : Int) := by omega
  rw [hx0, hy0]
  by_cases hin : (128 - tw) / 2 ≤ px ∧ px < (128 - tw) / 2 + tw ∧ 120 - th ≤ py ∧ py < 120
  · rw [if_pos (by omega), if_pos hin]
    have e1 : ((px : Int) - (((128 - tw) / 2 : Nat) : Int)).toNat = px - (128 - tw) / 2 := by
      omega
    have e2 : ((py : Int) - (((120 - th : Nat)) : Int)).toNat = py - (120 - th) := by omega
    rw [e1, e2]
  · rw [if_neg (by omega), if_neg hin]

/-- Witness for C5 at a concrete 1-by-1 raster, whose thumbnail size is
(1, 1). -/
theorem center_in_cell_spec_witness : (center_in_cell (blank 1 1) 128).width = 128 :=
  (center_in_cell_spec (blank 1 1) 1 1 (by decide) (by decide) (by decide)).1

end PikaBoard
